import Mathlib

/-!
Verification of the polygon rasterizer and visualization helpers of
`visualize_voc_annotations.py` (road-line segmentation data preparation).

The script's core, `xml_polygon_to_mask`, parses a VOC-style XML annotation
and paints class-indexed polygons onto a single-channel mask following a
drawing order (painter's algorithm).  We embed the parsed data model and the
layering logic shallowly:

* an annotated `object` element is an `XmlObject`: its `name` text and its
  optional `polygon` child;
* a `polygon` element is modelled as the association list of its coordinate
  child tags (tag name, numeric text value), so that ElementTree's `find`
  becomes `List.lookup` (first child with the given tag), and the Python
  f-string `f"x{i}"` becomes the string `"x" ++ toString i`;
* the pixel-coverage semantics of PIL's `ImageDraw.polygon` fill primitive
  (external library code, not part of this repository) is abstracted as a
  boolean predicate `covers : List (ℚ × ℚ) → Nat × Nat → Bool` passed to the
  rasterizer; every theorem below holds for an arbitrary such predicate;
* floating-point coordinate and colour arithmetic is idealised over `ℚ`.

Masks are modelled per pixel as functions `Nat × Nat → Nat` (x, y ↦ value),
sampled into a row-major grid `List (List Nat)` mirroring
`np.array(mask_image)`.
-/

/-- A `polygon` XML element: the ordered association list of its child tags,
each carrying the numeric value of its text (Python parses it with `float`;
we idealise over `ℚ`).  `ElementTree.find` returns the first child with the
requested tag, i.e. `List.lookup`. -/
def PolyElem : Type := List (String × ℚ)

/-- An `object` XML element: its `name` text and its optional `polygon`
child. -/
structure XmlObject where
  name : String
  polygon : Option PolyElem

/-- The coordinate-pair extraction loop of `xml_polygon_to_mask`
(`for i in range(1, 100): ...`), reading tags `x{i}`/`y{i}` starting at
index `i` with `fuel` remaining iterations, stopping at the first index
where either tag is missing (`else: break`). -/
def extractFrom (pe : PolyElem) : Nat → Nat → List (ℚ × ℚ)
  | _, 0 => []
  | i, fuel + 1 =>
    match List.lookup ("x" ++ toString i) pe, List.lookup ("y" ++ toString i) pe with
    | some x, some y => (x, y) :: extractFrom pe (i + 1) fuel
    | _, _ => []

/-- The point list the code extracts from a polygon element: indices start at
1 and the Python loop `for i in range(1, 100)` performs at most 99
iterations. -/
def extractPoints (pe : PolyElem) : List (ℚ × ℚ) :=
  extractFrom pe 1 99

/-- Modelled from the spec: «A polygon's point list is obtained by reading
consecutively indexed coordinate pairs (x1/y1, x2/y2, …) until an index is
missing; this stopping rule — not a fixed count — determines vertex count.»
The read is uncapped: the fuel `pe.length + 100` always exceeds the index of
the first missing pair (an association list with `n` entries cannot provide
`x`-tags for more than `n` distinct indices), so the recursion always stops
at a missing tag, never by fuel exhaustion. -/
def specExtractPoints (pe : PolyElem) : List (ℚ × ℚ) :=
  extractFrom pe 1 (pe.length + 100)

/-- A pixel coordinate (x, y). -/
abbrev Pixel : Type := Nat × Nat

/-- The coverage predicate of PIL's `ImageDraw.polygon(points, fill=...)`:
`covers pts p` holds when the fill primitive paints pixel `p` for the vertex
list `pts`.  The rasterizer is verified for an arbitrary predicate. -/
abbrev Covers : Type := List (ℚ × ℚ) → Pixel → Bool

/-- Drawing one polygon: `draw.polygon(points, fill=class_id)` sets every
covered pixel to `class_id` and leaves the rest of the mask unchanged. -/
def drawPolygon (covers : Covers) (pts : List (ℚ × ℚ)) (classId : Nat)
    (mask : Pixel → Nat) : Pixel → Nat :=
  fun p => if covers pts p then classId else mask p

/-- Processing one `object` of the class being drawn: if it has no `polygon`
child only a debug line is printed; otherwise the point list is extracted
and, `if points:` is non-empty, the polygon is filled with `class_id`. -/
def drawObject (covers : Covers) (classId : Nat) (mask : Pixel → Nat)
    (obj : XmlObject) : Pixel → Nat :=
  match obj.polygon with
  | none => mask
  | some pe =>
    let points := extractPoints pe
    if points.isEmpty then mask else drawPolygon covers points classId mask

/-- The grouping `objects_by_name`: the objects carrying a given name, in
document order (the Python code builds a dict of lists keyed by name). -/
def objectsByName (objs : List XmlObject) (className : String) : List XmlObject :=
  objs.filter fun o => o.name == className

/-- One iteration of the drawing-order loop:
`class_id = class_mapping.get(class_name, 0)`; when `class_id == 0 and
class_name not in class_mapping` a warning is printed and the class is
skipped (`continue`); otherwise every object registered under the name is
drawn.  (The code guards the inner loop with
`if class_name in objects_by_name:`; folding over the possibly empty
`objectsByName` list is equivalent.) -/
def drawClass (covers : Covers) (class_mapping : List (String × Nat))
    (objs : List XmlObject) (mask : Pixel → Nat) (class_name : String) :
    Pixel → Nat :=
  if (List.lookup class_name class_mapping).getD 0 = 0
      ∧ List.lookup class_name class_mapping = none then mask
  else (objectsByName objs class_name).foldl
    (drawObject covers ((List.lookup class_name class_mapping).getD 0)) mask

/-- The per-pixel value of the mask built by `xml_polygon_to_mask`: a fresh
all-zero canvas (`Image.new('L', image_size, 0)`) painted class by class in
drawing order. -/
def rasterizeFun (covers : Covers) (objs : List XmlObject)
    (class_mapping : List (String × Nat)) (drawing_order : List String) :
    Pixel → Nat :=
  drawing_order.foldl (drawClass covers class_mapping objs) (fun _ => 0)

/-- The grid returned by `xml_polygon_to_mask` (`np.array(mask_image)`):
row-major, entry `[y][x]` for `y < height`, `x < width`. -/
def xml_polygon_to_mask (covers : Covers) (objs : List XmlObject)
    (image_size : Nat × Nat) (class_mapping : List (String × Nat))
    (drawing_order : List String) : List (List Nat) :=
  (List.range image_size.2).map fun y =>
    (List.range image_size.1).map fun x =>
      rasterizeFun covers objs class_mapping drawing_order (x, y)

/-- Whether an object contributes a drawable polygon covering pixel `p`:
it has a `polygon` child whose extracted point list is non-empty and covers
`p` under the fill primitive. -/
def objCovers (covers : Covers) (obj : XmlObject) (p : Pixel) : Bool :=
  match obj.polygon with
  | none => false
  | some pe =>
    let points := extractPoints pe
    !points.isEmpty && covers points p

/-- Whether some object of the given class covers pixel `p`. -/
def classCovers (covers : Covers) (objs : List XmlObject) (className : String)
    (p : Pixel) : Bool :=
  (objectsByName objs className).any fun o => objCovers covers o p

/-- The class index the spec assigns to a pixel: the index of the last class
in the drawing order that is present in the class mapping and has a polygon
covering the pixel, if any. -/
def lastCoveringId (covers : Covers) (objs : List XmlObject)
    (class_mapping : List (String × Nat)) (p : Pixel) :
    List String → Option Nat
  | [] => none
  | cn :: rest =>
    match lastCoveringId covers objs class_mapping p rest with
    | some v => some v
    | none =>
      match List.lookup cn class_mapping with
      | some classId => if classCovers covers objs cn p then some classId else none
      | none => none

/-! ### Core lemmas about the drawing folds -/

/-- Drawing one object, per pixel: the pixel is set to `classId` exactly when
the object covers it. -/
theorem drawObject_apply (covers : Covers) (classId : Nat)
    (mask : Pixel → Nat) (o : XmlObject) (p : Pixel) :
    drawObject covers classId mask o p
      = if objCovers covers o p then classId else mask p := by
  unfold drawObject objCovers
  match o.polygon with
  | none => simp
  | some pe =>
    by_cases hpts : (extractPoints pe).isEmpty
    · simp [hpts, drawPolygon]
    · by_cases hcov : covers (extractPoints pe) p <;>
        simp [hpts, hcov, drawPolygon]

/-- Folding `drawObject` over a list of objects paints pixel `p` with
`classId` exactly when some object in the list covers `p`. -/
theorem foldl_drawObject_apply (covers : Covers) (classId : Nat)
    (l : List XmlObject) (mask : Pixel → Nat) (p : Pixel) :
    l.foldl (drawObject covers classId) mask p
      = if l.any (fun o => objCovers covers o p) then classId else mask p := by
  induction l generalizing mask with
  | nil => simp
  | cons o l ih =>
    rw [List.foldl_cons, ih]
    by_cases hl : l.any (fun o => objCovers covers o p)
    · simp [hl]
    · rw [if_neg (by simp [hl]), drawObject_apply]
      by_cases ho : objCovers covers o p <;> simp [ho, hl]

/-- One step of the drawing-order loop, per pixel: an unmapped class leaves
the mask unchanged; a mapped class overwrites the pixels it covers with its
index. -/
theorem drawClass_apply (covers : Covers) (cm : List (String × Nat))
    (objs : List XmlObject) (mask : Pixel → Nat) (cn : String) (p : Pixel) :
    drawClass covers cm objs mask cn p
      = match List.lookup cn cm with
        | none => mask p
        | some classId => if classCovers covers objs cn p then classId else mask p := by
  unfold drawClass classCovers
  match hcm : List.lookup cn cm with
  | none => simp [hcm]
  | some classId =>
    simp only [hcm, Option.getD_some]
    rw [if_neg (by simp [hcm])]
    exact foldl_drawObject_apply covers classId (objectsByName objs cn) mask p

/-- Unfolding equation of `lastCoveringId` on the empty drawing order. -/
theorem lastCoveringId_nil (covers : Covers) (objs : List XmlObject)
    (cm : List (String × Nat)) (p : Pixel) :
    lastCoveringId covers objs cm p [] = none := rfl

/-- Unfolding equation of `lastCoveringId` on a non-empty drawing order. -/
theorem lastCoveringId_cons (covers : Covers) (objs : List XmlObject)
    (cm : List (String × Nat)) (p : Pixel) (cn : String) (rest : List String) :
    lastCoveringId covers objs cm p (cn :: rest)
      = match lastCoveringId covers objs cm p rest with
        | some v => some v
        | none =>
          match List.lookup cn cm with
          | some classId =>
            if classCovers covers objs cn p then some classId else none
          | none => none := rfl

/-- The drawing-order fold, per pixel: the result is the index of the last
covering mapped class, and the initial mask's value where no such class
exists. -/
theorem foldl_drawClass_apply (covers : Covers) (cm : List (String × Nat))
    (objs : List XmlObject) (ord : List String) (mask : Pixel → Nat) (p : Pixel) :
    ord.foldl (drawClass covers cm objs) mask p
      = match lastCoveringId covers objs cm p ord with
        | some v => v
        | none => mask p := by
  induction ord generalizing mask with
  | nil => simp [lastCoveringId_nil]
  | cons cn rest ih =>
    rw [List.foldl_cons, ih, lastCoveringId_cons]
    match hrest : lastCoveringId covers objs cm p rest with
    | some v => simp
    | none =>
      simp only
      rw [drawClass_apply]
      match hcm : List.lookup cn cm with
      | none => simp
      | some classId =>
        by_cases hcov : classCovers covers objs cn p
        · simp [hcov]
        · simp [hcov]

/-- Per-pixel characterisation of the rasterizer. -/
theorem rasterizeFun_eq_lastCoveringId (covers : Covers)
    (objs : List XmlObject) (cm : List (String × Nat)) (ord : List String)
    (p : Pixel) :
    rasterizeFun covers objs cm ord p
      = (lastCoveringId covers objs cm p ord).getD 0 := by
  unfold rasterizeFun
  rw [foldl_drawClass_apply]
  match lastCoveringId covers objs cm p ord with
  | some v => rfl
  | none => rfl

/-- Reading entry `[y][x]` of the sampled grid gives the per-pixel value. -/
theorem xml_polygon_to_mask_getD (covers : Covers) (objs : List XmlObject)
    (w h : Nat) (cm : List (String × Nat)) (ord : List String)
    (x y : Nat) (hx : x < w) (hy : y < h) :
    ((xml_polygon_to_mask covers objs (w, h) cm ord).getD y []).getD x 0
      = rasterizeFun covers objs cm ord (x, y) := by
  have hrow : (xml_polygon_to_mask covers objs (w, h) cm ord).getD y []
      = (List.range w).map fun x => rasterizeFun covers objs cm ord (x, y) := by
    show ((List.range h).map fun y =>
      (List.range w).map fun x => rasterizeFun covers objs cm ord (x, y)).getD y [] = _
    rw [List.getD_eq_getElem?_getD, List.getElem?_map, List.getElem?_range hy]
    rfl
  rw [hrow, List.getD_eq_getElem?_getD, List.getElem?_map, List.getElem?_range hx]
  rfl

/-! ### Concrete sample data for witnesses -/

/-- A concrete coverage predicate used only by witnesses: every vertex list
covers every pixel. -/
def coversConst : Covers := fun _ _ => true

/-- A concrete 4×4 square polygon element. -/
def squarePoly : PolyElem :=
  [("x1", 0), ("y1", 0), ("x2", 4), ("y2", 0),
   ("x3", 4), ("y3", 4), ("x4", 0), ("y4", 4)]

/-- Sample annotated objects: one `road` and one `lm_solid` polygon. -/
def sampleObjs : List XmlObject :=
  [⟨"road", some squarePoly⟩, ⟨"lm_solid", some squarePoly⟩]

/-- The script's class mapping. -/
def sampleMapping : List (String × Nat) :=
  [("road", 1), ("lm_solid", 2), ("lm_dashed", 3)]

/-- The script's drawing order. -/
def sampleOrder : List String := ["road", "lm_solid", "lm_dashed"]

/-- A looked-up value of an association list is one of its stored values. -/
theorem lookup_mem_values {α β : Type} [BEq α] (l : List (α × β)) (a : α)
    (b : β) (h : List.lookup a l = some b) : b ∈ l.map Prod.snd := by
  induction l with
  | nil => simp [List.lookup] at h
  | cons e t ih =>
    rw [List.lookup_cons] at h
    by_cases he : a == e.1
    · simp only [he, if_pos] at h
      simp [← Option.some_inj.mp h]
    · simp only [he] at h
      rw [List.map_cons]
      exact List.mem_cons_of_mem _ (ih h)

/-- `lastCoveringId` only returns indices stored in the mapping for a class
of the drawing order. -/
theorem lastCoveringId_mem (covers : Covers) (objs : List XmlObject)
    (cm : List (String × Nat)) (p : Pixel) (ord : List String) (v : Nat)
    (h : lastCoveringId covers objs cm p ord = some v) :
    ∃ cn, cn ∈ ord ∧ List.lookup cn cm = some v := by
  induction ord with
  | nil => rw [lastCoveringId_nil] at h; exact absurd h (by simp)
  | cons cn rest ih =>
    rw [lastCoveringId_cons] at h
    split at h
    next w hrest =>
      obtain rfl := Option.some_inj.mp h
      obtain ⟨c, hc, hl⟩ := ih hrest
      exact ⟨c, List.mem_cons_of_mem _ hc, hl⟩
    next hrest =>
      split at h
      next classId hcm =>
        split at h
        next hcov =>
          obtain rfl := Option.some_inj.mp h
          exact ⟨cn, List.mem_cons_self cn rest, hcm⟩
        next hcov => exact absurd h (by simp)
      next hcm => exact absurd h (by simp)

/-! ### Claim theorems -/

/-- C1: for every set of annotated polygons, class mapping, drawing order and
positive canvas dimensions, the rasterized grid holds at each pixel the class
index of the last class in the drawing order (among classes present in the
mapping) having a polygon covering that pixel, and 0 at pixels covered by no
such polygon; later-drawn classes overwrite earlier ones. -/
theorem rasterizer_last_class_wins (covers : Covers) (objs : List XmlObject)
    (cm : List (String × Nat)) (ord : List String) (w h x y : Nat)
    (hx : x < w) (hy : y < h) :
    ((xml_polygon_to_mask covers objs (w, h) cm ord).getD y []).getD x 0
      = (lastCoveringId covers objs cm (x, y) ord).getD 0 := by
  rw [xml_polygon_to_mask_getD covers objs w h cm ord x y hx hy,
    rasterizeFun_eq_lastCoveringId]

/-- Witness for C1 at a concrete input: two overlapping polygons (`road`
drawn before `lm_solid`) on a 2×2 canvas; the later class wins, pixel (0,0)
holds index 2. -/
theorem rasterizer_last_class_wins_witness :
    (0 < 2 ∧ 0 < 2) ∧
    ((xml_polygon_to_mask coversConst sampleObjs (2, 2) sampleMapping
        sampleOrder).getD 0 []).getD 0 0
      = (lastCoveringId coversConst sampleObjs sampleMapping (0, 0)
          sampleOrder).getD 0 ∧
    (lastCoveringId coversConst sampleObjs sampleMapping (0, 0)
        sampleOrder).getD 0 = 2 :=
  ⟨⟨by decide, by decide⟩,
    rasterizer_last_class_wins coversConst sampleObjs sampleMapping
      sampleOrder 2 2 0 0 (by decide) (by decide),
    by decide⟩

/-- C4: the rasterizer is deterministic — two calls with identical arguments
return identical grids; in this shallow embedding `xml_polygon_to_mask` is a
pure function of its inputs, so the output depends only on them and carries
no hidden state. -/
theorem rasterizer_deterministic (covers : Covers) (objs : List XmlObject)
    (image_size : Nat × Nat) (cm : List (String × Nat)) (ord : List String) :
    xml_polygon_to_mask covers objs image_size cm ord
      = xml_polygon_to_mask covers objs image_size cm ord := rfl

/-- C10: every pixel value of the returned mask is either 0 or the mapped
index of some class in the drawing order; assuming all mapped indices are at
most 255, every pixel fits in one byte. -/
theorem mask_values_byte_range (covers : Covers) (objs : List XmlObject)
    (image_size : Nat × Nat) (cm : List (String × Nat)) (ord : List String)
    (hbyte : ∀ cn v, List.lookup cn cm = some v → v ≤ 255) :
    ∀ row ∈ xml_polygon_to_mask covers objs image_size cm ord, ∀ v ∈ row,
      (v = 0 ∨ ∃ cn, cn ∈ ord ∧ List.lookup cn cm = some v) ∧ v ≤ 255 := by
  intro row hrow v hv
  simp only [xml_polygon_to_mask, List.mem_map, List.mem_range] at hrow
  obtain ⟨y, hy, rfl⟩ := hrow
  simp only [List.mem_map, List.mem_range] at hv
  obtain ⟨x, hx, rfl⟩ := hv
  rw [rasterizeFun_eq_lastCoveringId]
  match hl : lastCoveringId covers objs cm (x, y) ord with
  | none => simp
  | some v =>
    obtain ⟨cn, hcn, hlu⟩ := lastCoveringId_mem covers objs cm (x, y) ord v hl
    exact ⟨Or.inr ⟨cn, hcn, by simpa using hlu⟩, hbyte cn v hlu⟩

/-- Witness for C10 at a concrete input: the script's own class mapping has
all indices at most 255, and the sampled 2×2 mask satisfies the invariant. -/
theorem mask_values_byte_range_witness :
    (∀ cn v, List.lookup cn sampleMapping = some v → v ≤ 255) ∧
    ∀ row ∈ xml_polygon_to_mask coversConst sampleObjs (2, 2) sampleMapping
        sampleOrder, ∀ v ∈ row,
      (v = 0 ∨ ∃ cn, cn ∈ sampleOrder ∧ List.lookup cn sampleMapping = some v)
        ∧ v ≤ 255 := by
  have hb : ∀ cn v, List.lookup cn sampleMapping = some v → v ≤ 255 := by
    intro cn v h
    have hm := lookup_mem_values sampleMapping cn v h
    simp [sampleMapping] at hm
    omega
  exact ⟨hb, mask_values_byte_range coversConst sampleObjs (2, 2)
    sampleMapping sampleOrder hb⟩

/-- A class name missing from the mapping leaves the mask untouched: the
warning branch executes `continue`. -/
theorem drawClass_unmapped (covers : Covers) (cm : List (String × Nat))
    (objs : List XmlObject) (mask : Pixel → Nat) (cn : String)
    (h : List.lookup cn cm = none) :
    drawClass covers cm objs mask cn = mask := by
  unfold drawClass
  rw [if_pos ⟨by rw [h]; rfl, h⟩]

/-- C5: a class name of the drawing order that is absent from the class
mapping contributes nothing — the resulting mask equals the one computed
with that class removed from the drawing order. -/
theorem unmapped_class_contributes_nothing (covers : Covers)
    (objs : List XmlObject) (image_size : Nat × Nat)
    (cm : List (String × Nat)) (ord : List String) (cn : String)
    (h : List.lookup cn cm = none) :
    xml_polygon_to_mask covers objs image_size cm ord
      = xml_polygon_to_mask covers objs image_size cm
          (ord.filter fun c => c != cn) := by
  unfold xml_polygon_to_mask rasterizeFun
  have key : ∀ (mask : Pixel → Nat),
      ord.foldl (drawClass covers cm objs) mask
        = (ord.filter fun c => c != cn).foldl (drawClass covers cm objs) mask := by
    induction ord with
    | nil => intro mask; rfl
    | cons c rest ih =>
      intro mask
      by_cases hc : c = cn
      · subst hc
        rw [List.foldl_cons, drawClass_unmapped covers cm objs mask c h]
        have : (c :: rest).filter (fun d => d != c) = rest.filter fun d => d != c := by
          simp [List.filter_cons]
        rw [this, ih mask]
      · have : (c :: rest).filter (fun d => d != cn)
            = c :: rest.filter fun d => d != cn := by
          simp [List.filter_cons, hc]
        rw [this, List.foldl_cons, List.foldl_cons, ih]
  rw [key]

/-- Witness for C5 at a concrete input: the class `sky` is unmapped, so the
mask is unchanged when it is dropped from the drawing order. -/
theorem unmapped_class_contributes_nothing_witness :
    List.lookup ("sky") sampleMapping = none ∧
    xml_polygon_to_mask coversConst sampleObjs (2, 2) sampleMapping
        (sampleOrder ++ ["sky"])
      = xml_polygon_to_mask coversConst sampleObjs (2, 2) sampleMapping
          ((sampleOrder ++ ["sky"]).filter fun c => c != "sky") :=
  ⟨by decide,
    unmapped_class_contributes_nothing coversConst sampleObjs (2, 2)
      sampleMapping (sampleOrder ++ ["sky"]) "sky" (by decide)⟩

/-- Whether an object yields any drawable point: it has a `polygon` child
whose extracted point list is non-empty. -/
def objHasPoints (o : XmlObject) : Bool :=
  match o.polygon with
  | none => false
  | some pe => !(extractPoints pe).isEmpty

/-- An object without drawable points is a no-op for the mask. -/
theorem drawObject_no_points (covers : Covers) (classId : Nat)
    (mask : Pixel → Nat) (o : XmlObject) (h : objHasPoints o = false) :
    drawObject covers classId mask o = mask := by
  unfold drawObject
  unfold objHasPoints at h
  match hp : o.polygon with
  | none => rfl
  | some pe =>
    rw [hp] at h
    simp only [Bool.not_eq_false'] at h
    simp [h]

/-- Objects without drawable points can be dropped from the inner fold. -/
theorem foldl_drawObject_filter (covers : Covers) (classId : Nat)
    (l : List XmlObject) (mask : Pixel → Nat) :
    (l.filter objHasPoints).foldl (drawObject covers classId) mask
      = l.foldl (drawObject covers classId) mask := by
  induction l generalizing mask with
  | nil => rfl
  | cons o t ih =>
    cases ho : objHasPoints o with
    | false =>
      simp only [List.filter_cons, ho, Bool.false_eq_true, if_false]
      rw [List.foldl_cons, drawObject_no_points covers classId mask o ho]
      exact ih mask
    | true =>
      simp only [List.filter_cons, ho, if_true]
      rw [List.foldl_cons, List.foldl_cons]
      exact ih _

/-- Selecting a class's objects commutes with filtering the object list. -/
theorem objectsByName_filter (objs : List XmlObject) (p : XmlObject → Bool)
    (cn : String) :
    objectsByName (objs.filter p) cn = (objectsByName objs cn).filter p := by
  unfold objectsByName
  induction objs with
  | nil => rfl
  | cons o t ih =>
    by_cases hp : p o <;> by_cases hn : o.name == cn <;>
      simp [List.filter_cons, hp, hn, ih]

/-- C8: annotated objects whose extracted point list is empty (no polygon
data, or zero readable coordinate pairs) paint no pixels and raise no error:
the mask equals the one computed with all such objects removed. -/
theorem empty_point_objects_skipped (covers : Covers) (objs : List XmlObject)
    (image_size : Nat × Nat) (cm : List (String × Nat)) (ord : List String) :
    xml_polygon_to_mask covers objs image_size cm ord
      = xml_polygon_to_mask covers (objs.filter objHasPoints) image_size cm
          ord := by
  unfold xml_polygon_to_mask rasterizeFun
  have hdc : ∀ (mask : Pixel → Nat) (cn : String),
      drawClass covers cm (objs.filter objHasPoints) mask cn
        = drawClass covers cm objs mask cn := by
    intro mask cn
    unfold drawClass
    rw [objectsByName_filter objs objHasPoints cn, foldl_drawObject_filter]
  have key : ∀ (ord' : List String) (mask : Pixel → Nat),
      ord'.foldl (drawClass covers cm (objs.filter objHasPoints)) mask
        = ord'.foldl (drawClass covers cm objs) mask := by
    intro ord'
    induction ord' with
    | nil => intro mask; rfl
    | cons c rest ih =>
      intro mask
      rw [List.foldl_cons, List.foldl_cons, hdc mask c]
      exact ih _
  rw [key]

/-- Drawing a class of the drawing order is unaffected by discarding objects
whose names lie outside the drawing order. -/
theorem drawClass_filter_contains (covers : Covers)
    (cm : List (String × Nat)) (objs : List XmlObject) (ord : List String)
    (mask : Pixel → Nat) (cn : String) (hcn : ord.contains cn = true) :
    drawClass covers cm (objs.filter fun o => ord.contains o.name) mask cn
      = drawClass covers cm objs mask cn := by
  unfold drawClass
  rw [objectsByName_filter objs (fun o => ord.contains o.name) cn]
  have heq : (objectsByName objs cn).filter (fun o => ord.contains o.name)
      = objectsByName objs cn := by
    apply List.filter_eq_self.mpr
    intro o ho
    have hname : (o.name == cn) = true := by
      unfold objectsByName at ho
      simpa using List.of_mem_filter ho
    rw [eq_of_beq hname]
    exact hcn
  rw [heq]

/-- C9: objects whose class name does not appear in the drawing order
contribute zero pixels, even when that name is present in the class mapping:
the mask equals the one computed after removing all such objects. -/
theorem objects_outside_drawing_order_ignored (covers : Covers)
    (objs : List XmlObject) (image_size : Nat × Nat)
    (cm : List (String × Nat)) (ord : List String) :
    xml_polygon_to_mask covers objs image_size cm ord
      = xml_polygon_to_mask covers
          (objs.filter fun o => ord.contains o.name) image_size cm ord := by
  unfold xml_polygon_to_mask rasterizeFun
  have key : ∀ (ord' : List String), (∀ c ∈ ord', ord.contains c = true) →
      ∀ (mask : Pixel → Nat),
      ord'.foldl (drawClass covers cm (objs.filter fun o => ord.contains o.name)) mask
        = ord'.foldl (drawClass covers cm objs) mask := by
    intro ord'
    induction ord' with
    | nil => intro _ mask; rfl
    | cons c rest ih =>
      intro hsub mask
      rw [List.foldl_cons, List.foldl_cons,
        drawClass_filter_contains covers cm objs ord mask c
          (hsub c (List.mem_cons_self c rest))]
      exact ih (fun d hd => hsub d (List.mem_cons_of_mem _ hd)) _
  rw [key ord fun c hc => List.elem_eq_true_of_mem hc]

/-! ### C3: explicitly-background class versus unmapped class -/

/-- A one-point polygon element, used by concrete C3 inputs. -/
def pointPoly : PolyElem := [("x1", 0), ("y1", 0)]

/-- Two overlapping objects: class `a` drawn before class `b`. -/
def overlapObjs : List XmlObject :=
  [⟨"a", some pointPoly⟩, ⟨"b", some pointPoly⟩]

/-- Mapping sending `a` to 1 and `b` explicitly to background index 0. -/
def mappingBzero : List (String × Nat) := [("a", 1), ("b", 0)]

/-- Mapping with `b` absent. -/
def mappingBabsent : List (String × Nat) := [("a", 1)]

/-- Drawing order: `a` first, then `b`. -/
def orderAB : List String := ["a", "b"]

/-- Looking up a key in an association list filtered on different keys is
unchanged. -/
theorem lookup_filter_ne {β : Type} (l : List (String × β)) (cn c : String)
    (hne : c ≠ cn) :
    List.lookup c (l.filter fun e => e.1 != cn) = List.lookup c l := by
  induction l with
  | nil => rfl
  | cons e t ih =>
    obtain ⟨k, v⟩ := e
    by_cases h1 : k = cn
    · have hf : ((k, v).1 != cn) = false := by simp [h1]
      rw [List.filter_cons, hf]
      simp only [Bool.false_eq_true, if_false]
      rw [ih]
      have hce : (c == k) = false := by
        rw [h1]
        exact beq_eq_false_iff_ne.mpr hne
      simp [List.lookup_cons, hce]
    · have hf : ((k, v).1 != cn) = true := by simp [h1]
      rw [List.filter_cons, hf]
      simp only [if_true]
      cases hce : c == k <;> simp [List.lookup_cons, hce, ih]

/-- Looking up the filtered-out key yields nothing. -/
theorem lookup_filter_self {β : Type} (l : List (String × β)) (cn : String) :
    List.lookup cn (l.filter fun e => e.1 != cn) = none := by
  induction l with
  | nil => rfl
  | cons e t ih =>
    obtain ⟨k, v⟩ := e
    by_cases h1 : k = cn
    · have hf : ((k, v).1 != cn) = false := by simp [h1]
      rw [List.filter_cons, hf]
      simp only [Bool.false_eq_true, if_false]
      exact ih
    · have hf : ((k, v).1 != cn) = true := by simp [h1]
      have hce : (cn == k) = false :=
        beq_eq_false_iff_ne.mpr fun hh => h1 hh.symm
      rw [List.filter_cons, hf]
      simp only [if_true]
      simp [List.lookup_cons, hce, ih]

/-- Drawing a class only consults the mapping through its own lookup. -/
theorem drawClass_congr_lookup (covers : Covers)
    (cm cm' : List (String × Nat)) (objs : List XmlObject)
    (mask : Pixel → Nat) (c : String)
    (h : List.lookup c cm = List.lookup c cm') :
    drawClass covers cm objs mask c = drawClass covers cm' objs mask c := by
  unfold drawClass
  rw [h]

/-- C3 counterexample: with class `b` explicitly mapped to index 0 and drawn
after class `a`, the fill with 0 erases `a`'s pixel, while with `b` absent
from the mapping the pixel keeps `a`'s index 1 — the two masks differ, so an
explicitly-background class is distinguishable from an unmapped one. -/
theorem background_zero_vs_unmapped_counterexample :
    xml_polygon_to_mask coversConst overlapObjs (1, 1) mappingBzero orderAB
      ≠ xml_polygon_to_mask coversConst overlapObjs (1, 1) mappingBabsent
          orderAB := by decide

/-- C3 amended: a class explicitly mapped to index 0 is drawn with fill 0 and
can overwrite pixels painted by classes earlier in the drawing order, so in
general it is distinguishable from an unmapped class; the two rasterizations
coincide when the 0-mapped class is drawn first (and appears only once in
the drawing order), since filling 0 over the fresh all-zero canvas is a
no-op. -/
theorem background_zero_class_first_in_order (covers : Covers)
    (objs : List XmlObject) (image_size : Nat × Nat)
    (cm : List (String × Nat)) (cn : String) (rest : List String)
    (h0 : List.lookup cn cm = some 0) (h1 : cn ∉ rest) :
    xml_polygon_to_mask covers objs image_size cm (cn :: rest)
      = xml_polygon_to_mask covers objs image_size
          (cm.filter fun e => e.1 != cn) (cn :: rest) := by
  unfold xml_polygon_to_mask rasterizeFun
  have hstepL : drawClass covers cm objs (fun _ => 0) cn = fun _ => 0 := by
    funext p
    rw [drawClass_apply, h0]
    simp
  have hstepR : drawClass covers (cm.filter fun e => e.1 != cn) objs
      (fun _ => 0) cn = fun _ => 0 :=
    drawClass_unmapped covers _ objs _ cn (lookup_filter_self cm cn)
  have key : ∀ (l : List String), (∀ c ∈ l, c ≠ cn) → ∀ (mask : Pixel → Nat),
      l.foldl (drawClass covers cm objs) mask
        = l.foldl (drawClass covers (cm.filter fun e => e.1 != cn) objs) mask := by
    intro l
    induction l with
    | nil => intro _ mask; rfl
    | cons c t ih =>
      intro hsub mask
      rw [List.foldl_cons, List.foldl_cons,
        drawClass_congr_lookup covers cm (cm.filter fun e => e.1 != cn) objs
          mask c (lookup_filter_ne cm cn c (hsub c (List.mem_cons_self c t))).symm]
      exact ih (fun d hd => hsub d (List.mem_cons_of_mem _ hd)) _
  rw [List.foldl_cons, List.foldl_cons, hstepL, hstepR,
    key rest (fun d hd heq => h1 (heq ▸ hd)) _]

/-- Witness for the amended C3 at a concrete input: with `b ↦ 0` drawn
first, removing `b` from the mapping leaves the mask unchanged. -/
theorem background_zero_class_first_in_order_witness :
    (List.lookup ("b") mappingBzero = some 0 ∧ "b" ∉ ["a"]) ∧
    xml_polygon_to_mask coversConst overlapObjs (1, 1) mappingBzero
        ("b" :: ["a"])
      = xml_polygon_to_mask coversConst overlapObjs (1, 1)
          (mappingBzero.filter fun e => e.1 != "b") ("b" :: ["a"]) :=
  ⟨⟨by decide, by decide⟩,
    background_zero_class_first_in_order coversConst overlapObjs (1, 1)
      mappingBzero "b" ["a"] (by decide) (by decide)⟩

/-! ### C2: the point-extraction stopping rule -/

/-- Unfolding equation of `extractFrom` for positive fuel. -/
theorem extractFrom_succ (pe : PolyElem) (i fuel : Nat) :
    extractFrom pe i (fuel + 1)
      = match List.lookup ("x" ++ toString i) pe,
              List.lookup ("y" ++ toString i) pe with
        | some x, some y => (x, y) :: extractFrom pe (i + 1) fuel
        | _, _ => [] := rfl

/-- Running the extraction loop with less fuel yields a prefix of the run
with more fuel. -/
theorem extractFrom_take (pe : PolyElem) (f : Nat) :
    ∀ (i g : Nat), f ≤ g →
      extractFrom pe i f = (extractFrom pe i g).take f := by
  induction f with
  | zero => intro i g hle; rfl
  | succ f ih =>
    intro i g hle
    obtain ⟨g, rfl⟩ : ∃ k, g = k + 1 := ⟨g - 1, by omega⟩
    rcases hx : List.lookup ("x" ++ toString i) pe with _ | x <;>
      rcases hy : List.lookup ("y" ++ toString i) pe with _ | y <;>
        simp only [extractFrom_succ, hx, hy, List.take_nil, List.take_succ_cons]
    rw [ih (i + 1) g (by omega)]

/-- C2 amended: the extracted point list follows the until-an-index-is-
missing stopping rule only up to a fixed cap of 99 coordinate pairs (the
loop is `for i in range(1, 100)`): it equals the first 99 elements of the
uncapped until-missing list, so a gap still truncates early without failing,
but pairs beyond index 99 are dropped even when present. -/
theorem extractPoints_eq_take_spec (pe : PolyElem) :
    extractPoints pe = (specExtractPoints pe).take 99 :=
  extractFrom_take pe 99 1 (pe.length + 100) (by omega)

set_option maxRecDepth 10000

/-- A polygon element with 100 complete, consecutively indexed coordinate
pairs x1/y1 … x100/y100 and no gap. -/
def poly100 : PolyElem :=
  (List.range 100).flatMap fun i =>
    [("x" ++ toString (i + 1), (0 : ℚ)), ("y" ++ toString (i + 1), (0 : ℚ))]

/-- C2 counterexample: on a gap-free sequence of 100 coordinate pairs the
first missing index is 101, so the stopping rule alone would extract 100
vertices, but the code extracts only 99 — the vertex count is capped by the
fixed loop bound, contradicting «determined solely by this stopping rule and
not by any fixed count». -/
theorem point_extraction_cap_counterexample :
    (extractPoints poly100).length = 99 ∧
    (specExtractPoints poly100).length = 100 ∧
    extractPoints poly100 ≠ specExtractPoints poly100 := by
  have h99 : (extractPoints poly100).length = 99 := by decide
  have h100 : (specExtractPoints poly100).length = 100 := by decide
  refine ⟨h99, h100, fun h => ?_⟩
  rw [congrArg List.length h, h100] at h99
  exact absurd h99 (by decide)

/-! ### C6/C7: visualization helpers -/

/-- An RGB colour triple. -/
abbrev RGB : Type := Nat × Nat × Nat

/-- The colorizer `visualize_mask`: starts from `np.zeros((h, w, 3))`
(black) and, for each `(class_id, color)` entry of the colour table in
order, substitutes `color` at every pixel where the mask equals `class_id`
(`np.where`).  Python dict iteration follows insertion order, so the table
is modelled as an ordered association list; dict keys are unique, which the
theorems take as a `Nodup` hypothesis.  Modelled per pixel. -/
def visualize_mask (mask : Pixel → Nat) (class_colors : List (Nat × RGB)) :
    Pixel → RGB :=
  class_colors.foldl
    (fun img e => fun p => if mask p = e.1 then e.2 else img p)
    (fun _ => (0, 0, 0))

/-- A key outside an association list's key set looks up to nothing. -/
theorem lookup_eq_none_of_not_mem_keys {α β : Type} [BEq α] [LawfulBEq α]
    (l : List (α × β)) (a : α) (h : a ∉ l.map Prod.fst) :
    List.lookup a l = none := by
  induction l with
  | nil => rfl
  | cons e t ih =>
    obtain ⟨k, v⟩ := e
    rw [List.map_cons] at h
    have h1 : a ≠ k := fun hh => h (hh ▸ List.mem_cons_self _ _)
    have h2 : a ∉ t.map Prod.fst := fun hm => h (List.mem_cons_of_mem _ hm)
    rw [List.lookup_cons]
    have hb : (a == k) = false := beq_eq_false_iff_ne.mpr h1
    simp only [hb]
    exact ih h2

/-- With duplicate-free keys, the colour-substitution fold computes the
colour-table lookup of each pixel's class, defaulting to the initial
image. -/
theorem visualize_mask_foldl_lookup (mask : Pixel → Nat)
    (l : List (Nat × RGB)) (init : Pixel → RGB) (p : Pixel)
    (hnodup : (l.map Prod.fst).Nodup) :
    l.foldl (fun img e => fun p => if mask p = e.1 then e.2 else img p) init p
      = (List.lookup (mask p) l).getD (init p) := by
  induction l generalizing init with
  | nil => simp
  | cons e t ih =>
    obtain ⟨k, c⟩ := e
    rw [List.map_cons, List.nodup_cons] at hnodup
    rw [List.foldl_cons, ih _ hnodup.2]
    by_cases hk : mask p = k
    · have hnone : List.lookup (mask p) t = none := by
        rw [hk]
        exact lookup_eq_none_of_not_mem_keys t k hnodup.1
      rw [hnone, List.lookup_cons]
      have hb : (mask p == k) = true := beq_iff_eq.mpr hk
      simp [hb, hk]
    · rw [List.lookup_cons]
      have hb : (mask p == k) = false := beq_eq_false_iff_ne.mpr hk
      simp [hb, hk]

/-- C6: with a duplicate-free colour table (a Python dict), the colorizer
maps each pixel of the mask to the colour configured for its class index,
defaulting to black (0,0,0) for indices absent from the table, and on an
all-zero mask it yields a constant image of the background colour (the
colour of index 0, black when unconfigured).  The embedding is a pure
function, so there are no side effects. -/
theorem visualize_mask_colorize (mask : Pixel → Nat)
    (class_colors : List (Nat × RGB))
    (hnodup : (class_colors.map Prod.fst).Nodup) :
    (∀ p, visualize_mask mask class_colors p
        = (List.lookup (mask p) class_colors).getD (0, 0, 0)) ∧
    ((∀ p, mask p = 0) → ∀ p, visualize_mask mask class_colors p
        = (List.lookup 0 class_colors).getD (0, 0, 0)) := by
  have hmain : ∀ p, visualize_mask mask class_colors p
      = (List.lookup (mask p) class_colors).getD (0, 0, 0) := fun p =>
    visualize_mask_foldl_lookup mask class_colors (fun _ => (0, 0, 0)) p hnodup
  exact ⟨hmain, fun hz p => by rw [hmain p, hz p]⟩

/-- The script's colour table. -/
def sampleColors : List (Nat × RGB) :=
  [(0, (0, 0, 0)), (1, (255, 0, 0)), (2, (0, 255, 0)), (3, (255, 255, 0))]

/-- Witness for C6 at a concrete input: the script's colour table has
duplicate-free keys, and on an all-zero mask pixel (0,0) gets the configured
background colour. -/
theorem visualize_mask_colorize_witness :
    (sampleColors.map Prod.fst).Nodup ∧
    visualize_mask (fun _ => 0) sampleColors (0, 0)
      = (List.lookup 0 sampleColors).getD (0, 0, 0) :=
  ⟨by decide,
    (visualize_mask_colorize (fun _ => 0) sampleColors (by decide)).1 (0, 0)⟩

/-- A colour with rational channels: `Image.blend` interpolates channel
values in floating point, idealised here over `ℚ`. -/
abbrev RGBq : Type := ℚ × ℚ × ℚ

/-- Embedding of an 8-bit colour into rational channels. -/
def rgbQ (c : RGB) : RGBq := ((c.1 : ℚ), (c.2.1 : ℚ), (c.2.2 : ℚ))

/-- Per-pixel linear interpolation computed by
`Image.blend(original, overlay, alpha)`:
`original * (1 - alpha) + overlay * alpha`. -/
def blendPixel (alpha : ℚ) (o c : RGBq) : RGBq :=
  ((1 - alpha) * o.1 + alpha * c.1,
   (1 - alpha) * o.2.1 + alpha * c.2.1,
   (1 - alpha) * o.2.2 + alpha * c.2.2)

/-- The overlay `visualize_mask_on_image`: colorizes the mask with
`visualize_mask`, resizes the colorized image to the original image's pixel
dimensions (`mask_image.resize(original_image.size)`; PIL's resampling is
external library code, abstracted as the `resize` parameter) and blends it
over the original with weight `alpha`. -/
def visualize_mask_on_image
    (resize : (Pixel → RGBq) → Nat × Nat → (Pixel → RGBq))
    (original : Pixel → RGBq) (original_size : Nat × Nat)
    (mask : Pixel → Nat) (class_colors : List (Nat × RGB)) (alpha : ℚ) :
    Pixel → RGBq :=
  let mask_image := fun p => rgbQ (visualize_mask mask class_colors p)
  let resized := resize mask_image original_size
  fun p => blendPixel alpha (original p) (resized p)

/-- C7: the blend computes, per pixel,
`alpha * colorized + (1 - alpha) * original` after resizing the colorized
mask to the original's pixel dimensions; with `alpha = 0` it returns the
original image unchanged pixel-for-pixel, and with `alpha = 1` it returns
the colorized image resized to the original's dimensions — for an arbitrary
resize primitive. -/
theorem blend_endpoints
    (resize : (Pixel → RGBq) → Nat × Nat → (Pixel → RGBq))
    (original : Pixel → RGBq) (original_size : Nat × Nat)
    (mask : Pixel → Nat) (class_colors : List (Nat × RGB)) :
    (∀ (alpha : ℚ) (p : Pixel),
       visualize_mask_on_image resize original original_size mask
           class_colors alpha p
         = blendPixel alpha (original p)
             (resize (fun q => rgbQ (visualize_mask mask class_colors q))
               original_size p)) ∧
    visualize_mask_on_image resize original original_size mask class_colors 0
      = original ∧
    visualize_mask_on_image resize original original_size mask class_colors 1
      = resize (fun q => rgbQ (visualize_mask mask class_colors q))
          original_size := by
  refine ⟨fun alpha p => rfl, ?_, ?_⟩
  · funext p
    show blendPixel 0 (original p) _ = original p
    unfold blendPixel
    simp
  · funext p
    show blendPixel 1 (original p)
        (resize (fun q => rgbQ (visualize_mask mask class_colors q))
          original_size p) = _
    unfold blendPixel
    simp
